import Mathlib

/-!
Verification of the user-analysis app (`src/app.py`).

The program loads one or two tabular files (CSV or spreadsheet), lets the
user pick dates, location names, SSIDs and one location type, computes a
distinct count of `User Name` per (date, location) pair
(`calculate_distinct_count`), merges the two per-file result tables with
duplicate removal, and offers CSV/XLSX downloads.

Embedding choices:
* a `Table` is a list of column names plus rows of cells; a cell is
  `Option String` (`none` models a pandas missing value / NaN; all present
  values are modelled as strings, matching the string selections the UI
  feeds back into the filter);
* column access `Table.col?` returns `none` when the column is absent,
  modelling an uncaught pandas `KeyError`;
* fallible steps (column access, parsing) live in `Option`; a `none`
  result models an uncaught Python exception;
* the distinct-count result rows are `ResultRow` records; the final
  `astype(str)` on the `Local Date` column of the result is the identity
  here because selected dates are already strings;
* the Streamlit UI (widgets, charts, caching decorators) is out of scope;
  user selections are passed as explicit arguments.
-/

namespace App

/-- A cell of a loaded table: `none` models a pandas missing value (NaN). -/
abbrev Cell := Option String

/-- A row of a loaded table, one cell per column. -/
abbrev Row := List Cell

/-- In-memory table: ordered column names and ordered rows
(the pandas `DataFrame` of `app.py`). -/
structure Table where
  columns : List String
  rows : List Row
deriving DecidableEq, Repr

/-- `df[c]`: the column named `c` as a list of cells, or `none` when the
column is absent (pandas raises `KeyError`, modelled by `none`).
A cell beyond a short row is read as missing. -/
def Table.col? (t : Table) (c : String) : Option (List Cell) :=
  match t.columns.indexOf? c with
  | some i => some (t.rows.map (fun r => r.getD i none))
  | none => none

/-- Python `str()` applied to a cell: a missing value prints as `"nan"`
(pandas `astype(str)` turns NaN into the string `"nan"`). -/
def pyStr : Cell → String
  | some s => s
  | none => "nan"

/-- First-occurrence deduplication scan: drop an element when it already
occurred (is in `seen`).  Models both pandas `Series.unique` (order of
first appearance) and `DataFrame.drop_duplicates` (keep the first row). -/
def dedupFirstAux [DecidableEq α] (seen : List α) : List α → List α
  | [] => []
  | x :: xs => if x ∈ seen then dedupFirstAux seen xs else x :: dedupFirstAux (x :: seen) xs

/-- Keep the first occurrence of each element, in order of appearance. -/
def pyDedupFirst [DecidableEq α] (l : List α) : List α :=
  dedupFirstAux [] l

/-- Python `sorted` on strings: ascending lexicographic order (stable;
on the duplicate-free lists fed to it the algorithm is irrelevant). -/
def pySorted (l : List String) : List String :=
  List.insertionSort (· ≤ ·) l

/-- `get_unique_values` of `app.py`:
`sorted(df[column].astype(str).unique())`.  `none` models the `KeyError`
on an absent column. -/
def get_unique_values (df : Table) (column : String) : Option (List String) :=
  (df.col? column).map (fun cells => pySorted (pyDedupFirst (cells.map pyStr)))

/-- One row of the aggregation result:
(`Local Date`, `Location Name`, `Distinct Count`). -/
structure ResultRow where
  date : String
  locName : String
  count : Nat
deriving DecidableEq, Repr

/-- `Series.isin(ssid)` applied to one SSID cell: a missing value is in no
string list. -/
def ssidHit (ssids : List String) : Cell → Bool
  | some v => ssids.contains v
  | none => false

/-- Option-valued `List.map` that stops at the first `none`, mirroring a
Python loop that an uncaught exception aborts. -/
def mapOpt (f : α → Option β) : List α → Option (List β)
  | [] => some []
  | x :: xs => do
    let y ← f x
    let ys ← mapOpt f xs
    pure (y :: ys)

/-- One iteration of the nested loop of `calculate_distinct_count`:
build the four boolean masks (`==` on the three single-value columns,
`isin` on `SSID`), conjoin them, filter the rows, and take
`filtered_df['User Name'].nunique()` (distinct non-missing values).
`none` models a `KeyError` on a missing column. -/
def calcCell (df : Table) (local_date location_name : String) (ssid : List String)
    (location_type : String) : Option ResultRow := do
  let dcol ← df.col? "Local Date"
  let lcol ← df.col? "Location Name"
  let tcol ← df.col? "Location Type"
  let scol ← df.col? "SSID"
  let mask := List.zipWith and
    (List.zipWith and
      (List.zipWith and
        (dcol.map (fun c => c == some local_date))
        (lcol.map (fun c => c == some location_name)))
      (tcol.map (fun c => c == some location_type)))
    (scol.map (ssidHit ssid))
  let filtered := ((df.rows.zip mask).filter (fun q => q.2)).map (fun q => q.1)
  let ucol ← (Table.mk df.columns filtered).col? "User Name"
  pure ⟨local_date, location_name, (pyDedupFirst (ucol.filterMap id)).length⟩

/-- `calculate_distinct_count` of `app.py`: iterate dates (outer) and
location names (inner), emitting one `ResultRow` per pair.  The trailing
`astype(str)` on the result's `Local Date` is the identity on these
string dates. -/
def calculate_distinct_count (df : Table) (local_dates location_names : List String)
    (ssid : List String) (location_type : String) : Option (List ResultRow) :=
  mapOpt (fun p => calcCell df p.1 p.2 ssid location_type)
    (local_dates.flatMap (fun d => location_names.map (fun l => (d, l))))

/-- `pd.concat([results1, results2]).drop_duplicates()` of `app.py`:
concatenate, then keep the first occurrence of each row. -/
def merged_df (resultA resultB : List ResultRow) : List ResultRow :=
  pyDedupFirst (resultA ++ resultB)

/-! ### CSV serialization and parsing

Modelled from the spec: `app.py` delegates CSV writing and reading to the
external pandas library (`df.to_csv(index=False)`, `pd.read_csv`), whose
code is not part of this repository.  Following the spec's words — CSV is
the "standard comma-delimited serialization with a header row of column
names, one row per Result Row, no index column" — we model standard
(RFC 4180 style) CSV: a field containing a comma, double quote, newline
or carriage return is written inside double quotes with inner quotes
doubled; records are separated by a newline and the output ends with a
trailing newline; the reader splits records and fields outside quotes,
undoes the quoting, skips blank lines, and fails (`none`, an uncaught
parse exception) on malformed quoting, on an empty input, or on a record
whose field count differs from the header's. -/

/-- Double every `"` in a field's content (standard CSV quoting). -/
def escQuote : List Char → List Char
  | [] => []
  | c :: cs => if c = '"' then '"' :: '"' :: escQuote cs else c :: escQuote cs

/-- A character that forces a CSV field to be quoted. -/
def isCsvSpecial (c : Char) : Bool :=
  c = ',' || c = '"' || c = '\n' || c = '\r'

/-- Does a field need quoting? -/
def needsQuote (s : List Char) : Bool :=
  s.any isCsvSpecial

/-- Serialize one field, quoting it only when needed. -/
def renderField (s : List Char) : List Char :=
  if needsQuote s then '"' :: (escQuote s ++ ['"']) else s

/-- Join fields with commas. -/
def joinComma : List (List Char) → List Char
  | [] => []
  | [f] => f
  | f :: fs => f ++ ',' :: joinComma fs

/-- The comma-joined serialized fields of one record (no terminator). -/
def renderedRec (fs : List (List Char)) : List Char :=
  joinComma (fs.map renderField)

/-- Serialize one record: joined fields plus the newline terminator. -/
def renderRecord (fs : List (List Char)) : List Char :=
  renderedRec fs ++ ['\n']

/-- Column names of a result table, in order. -/
def resultHeader : List String :=
  ["Local Date", "Location Name", "Distinct Count"]

/-- The three serialized fields of a result row (the count in decimal). -/
def rrFields (r : ResultRow) : List (List Char) :=
  [r.date.data, r.locName.data, (Nat.repr r.count).data]

/-- `df.to_csv(index=False)` on a result table: header record then one
record per row, each newline-terminated.  Modelled from the spec (see
the section comment). -/
def to_csv (rt : List ResultRow) : String :=
  String.mk (renderRecord (resultHeader.map String.data)
    ++ rt.flatMap (fun r => renderRecord (rrFields r)))

/-- Split raw CSV text into records at newlines that are outside quotes;
`inQ` tracks whether the scan is inside a quoted field and `acc` holds
the current record's characters in reverse. -/
def splitRecordsGo : List Char → Bool → List Char → List (List Char)
  | [], _, acc => [acc.reverse]
  | c :: cs, inQ, acc =>
    if c = '"' then splitRecordsGo cs (!inQ) ('"' :: acc)
    else if c = '\n' then
      if inQ then splitRecordsGo cs inQ (c :: acc)
      else acc.reverse :: splitRecordsGo cs false []
    else splitRecordsGo cs inQ (c :: acc)

/-- Split one record into raw fields at commas that are outside quotes. -/
def splitFieldsGo : List Char → Bool → List Char → List (List Char)
  | [], _, acc => [acc.reverse]
  | c :: cs, inQ, acc =>
    if c = '"' then splitFieldsGo cs (!inQ) ('"' :: acc)
    else if c = ',' then
      if inQ then splitFieldsGo cs inQ (c :: acc)
      else acc.reverse :: splitFieldsGo cs false []
    else splitFieldsGo cs inQ (c :: acc)

/-- Interpret the content of a quoted field after its opening quote:
undo doubled quotes; the content must end at the closing quote, with
nothing after it.  `none` on malformed quoting. -/
def undouble : List Char → Option (List Char)
  | [] => none
  | c :: cs =>
    if c = '"' then
      match cs with
      | [] => some []
      | c2 :: cs2 =>
        if c2 = '"' then (undouble cs2).map (fun f => '"' :: f)
        else none
    else (undouble cs).map (fun f => c :: f)

/-- Interpret one raw field: a field starting with a quote is a quoted
field, anything else is taken literally and may not contain a quote. -/
def unquoteField (f : List Char) : Option (List Char) :=
  match f with
  | [] => some []
  | c :: rest =>
    if c = '"' then undouble rest
    else if (c :: rest).contains '"' then none
    else some (c :: rest)

/-- Interpret one raw record: split into fields and unquote each. -/
def parseRecord1 (rec : List Char) : Option (List (List Char)) :=
  mapOpt unquoteField (splitFieldsGo rec false [])

/-- `pd.read_csv` on raw text (modelled from the spec, see the section
comment): split into records, skip blank lines, the first record is the
header; every data record must have as many fields as the header; every
parsed field becomes a present (`some`) string cell. -/
def read_csv (contents : String) : Option Table := do
  let recs := (splitRecordsGo contents.data false []).filter (fun r => !r.isEmpty)
  let hrec ← recs.head?
  let header ← parseRecord1 hrec
  let rows ← mapOpt parseRecord1 recs.tail
  if rows.all (fun r => r.length == header.length) then
    some ⟨header.map (fun f => String.mk f),
          rows.map (fun r => r.map (fun f => some (String.mk f)))⟩
  else none

/-! ### Loader, per-file analysis, download links -/

/-- An uploaded file: name, declared MIME type, raw contents. -/
structure UploadedFile where
  name : String
  type : String
  contents : String

/-- `load_data` of `app.py`: dispatch on the declared type (`text/csv`
parses as CSV, anything else as a spreadsheet via the external
`pd.read_excel`, passed here as the function `read_excel`); any parse
failure is caught and turned into a user-visible error message plus an
absent table.  Returns the loaded table (if any) and the list of
reported messages. -/
def load_data (read_excel : String → Option Table) (file : UploadedFile) :
    Option Table × List String :=
  match (if file.type = "text/csv" then read_csv file.contents
         else read_excel file.contents) with
  | some df => (some df, [])
  | none => (none, ["Error loading data"])

/-- `analyze_file` of `app.py`, with the UI-supplied selections passed
explicitly: when the file loaded and all of dates, locations and SSIDs
are non-empty (Python truthiness of the three lists), run the
aggregation; otherwise return an empty result table.  The outer `Option`
models an uncaught exception inside the aggregation. -/
def analyze_file (read_excel : String → Option Table) (file : UploadedFile)
    (local_dates location_names ssid : List String) (location_type : String) :
    Option (List ResultRow) :=
  match (load_data read_excel file).1 with
  | some df =>
    if !local_dates.isEmpty && !location_names.isEmpty && !ssid.isEmpty then
      calculate_distinct_count df local_dates location_names ssid location_type
    else some []
  | none => some []

/-- `download_link` of `app.py`: build an HTML download link for `csv` or
`xlsx`; for any other `filetype` no branch assigns `href` and the
`return href` raises `UnboundLocalError`, modelled by `none`.  The
external base64 encoder and the external spreadsheet writer are passed
as functions `b64encode` and `to_excel`. -/
def download_link (b64encode : String → String) (to_excel : List ResultRow → String)
    (df : List ResultRow) (filetype filename : String) : Option String :=
  if filetype = "csv" then
    some ("<a href=\"data:file/csv;base64," ++ b64encode (to_csv df)
      ++ "\" download=\"" ++ filename ++ "\">Download " ++ filename ++ " as CSV</a>")
  else if filetype = "xlsx" then
    some ("<a href=\"data:application/octet-stream;base64," ++ b64encode (to_excel df)
      ++ "\" download=\"" ++ filename ++ "\">Download " ++ filename ++ " as XLSX</a>")
  else none

/-! ### Specification-side definitions

These restate, in the spec's own words, what the aggregation, selector
and merger are claimed to compute; the theorems below compare them with
the embedded source functions. -/

/-- The cell of row `r` in the column named `c` (spec view of one row). -/
def rowCell (t : Table) (c : String) (r : Row) : Cell :=
  match t.columns.indexOf? c with
  | some i => r.getD i none
  | none => none

/-- Spec filter predicate: `Local Date == date` and
`Location Name == location` and `Location Type == locationType` and
`SSID ∈ ssids`, on one row. -/
def rowMatches (t : Table) (d l lt : String) (ssids : List String) (r : Row) : Bool :=
  (((rowCell t "Local Date" r == some d)
      && (rowCell t "Location Name" r == some l))
    && (rowCell t "Location Type" r == some lt))
  && ssidHit ssids (rowCell t "SSID" r)

/-- The table rows matching one (date, location) filter combination. -/
def matchingRows (t : Table) (d l lt : String) (ssids : List String) : List Row :=
  t.rows.filter (rowMatches t d l lt ssids)

/-- The number of distinct present `User Name` values among the matching
rows (missing values do not count). -/
def distinctUserCount (t : Table) (d l lt : String) (ssids : List String) : Nat :=
  (pyDedupFirst ((matchingRows t d l lt ssids).filterMap
    (fun r => rowCell t "User Name" r))).length

/-- Spec view of duplicate removal: keep the entry at position `i` exactly
when no earlier position holds an equal entry (first occurrences, in
position order). -/
def specDedup [DecidableEq α] (l : List α) : List α :=
  (l.enum.filter (fun p => !((l.take p.1).contains p.2))).map Prod.snd

/-- The columns `app.py` reads from a loaded table. -/
def requiredColumns : List String :=
  ["Local Date", "Location Name", "Location Type", "SSID", "User Name"]

/-- All five required columns are present in the table. -/
def requiredPresent (t : Table) : Prop :=
  (t.col? "Local Date").isSome ∧ (t.col? "Location Name").isSome
    ∧ (t.col? "Location Type").isSome ∧ (t.col? "SSID").isSome
    ∧ (t.col? "User Name").isSome

instance (t : Table) : Decidable (requiredPresent t) := by
  unfold requiredPresent
  infer_instance

/-- The table a result table denotes after a CSV round trip: the three
result columns, every cell a present string, the count in decimal. -/
def resultTableOf (rt : List ResultRow) : Table :=
  ⟨resultHeader, rt.map (fun r => [some r.date, some r.locName, some (Nat.repr r.count)])⟩

/-- The list of (date, location) pairs of the selection's cross product,
dates outer, locations inner. -/
def crossPairs (dates locs : List String) : List (String × String) :=
  dates.flatMap (fun d => locs.map (fun l => (d, l)))

/-- The table with the rows whose `User Name` cell is missing removed
(same columns).  Used to state that missing users never contribute to a
distinct count. -/
def dropNullUsers (t : Table) : Table :=
  ⟨t.columns, t.rows.filter (fun r => (rowCell t "User Name" r).isSome)⟩

/-- A sample table from the spec's test scenario: three rows, two of them
identical, a third with a new SSID and user. -/
def exTable : Table :=
  ⟨["Local Date", "Location Name", "Location Type", "SSID", "User Name"],
   [[some "d1", some "l1", some "t1", some "s1", some "u1"],
    [some "d1", some "l1", some "t1", some "s1", some "u1"],
    [some "d1", some "l1", some "t1", some "s2", some "u2"]]⟩

/-- A sample table whose only matching rows carry a missing `User Name`. -/
def exTableNull : Table :=
  ⟨["Local Date", "Location Name", "Location Type", "SSID", "User Name"],
   [[some "d1", some "l1", some "t1", some "s1", none],
    [some "d1", some "l1", some "t1", some "s1", none],
    [some "d2", some "l1", some "t1", some "s1", some "u1"]]⟩

/-- A sample table lacking the `SSID` column. -/
def exTableNoSsid : Table :=
  ⟨["Local Date", "Location Name", "Location Type", "User Name"],
   [[some "d1", some "l1", some "t1", some "u1"]]⟩


/-! ### Lemmas

General list lemmas, the characterization of the first-occurrence
deduplication, the aggregation characterization, and the CSV round-trip
development, followed by the claim theorems. -/
theorem zipWith_map_same (f : β → γ → δ) (g : α → β) (h : α → γ) (l : List α) :
    List.zipWith f (l.map g) (l.map h) = l.map (fun x => f (g x) (h x)) := by
  induction l with
  | nil => rfl
  | cons a t ih => simp [ih]

theorem zip_self_filter_snd (p : α → Bool) (l : List α) :
    (l.zip (l.map p)).filter (fun q => q.2)
      = (l.filter p).map (fun x => (x, p x)) := by
  induction l with
  | nil => rfl
  | cons a t ih =>
    cases hp : p a <;>
      simp [List.zip_cons_cons, List.filter_cons, hp, ih]

theorem mapOpt_cons (f : α → Option β) (a : α) (t : List α) :
    mapOpt f (a :: t) = (f a).bind (fun y => (mapOpt f t).bind (fun ys => some (y :: ys))) := rfl

theorem mapOpt_eq_some_of (f : α → Option β) (g : α → β) (l : List α)
    (h : ∀ x ∈ l, f x = some (g x)) : mapOpt f l = some (l.map g) := by
  induction l with
  | nil => rfl
  | cons a t ih =>
    rw [mapOpt_cons, h a (List.mem_cons_self a t),
      ih (fun x hx => h x (List.mem_cons_of_mem a hx))]
    rfl

theorem mapOpt_none_of (f : α → Option β) (l : List α) (x : α)
    (hx : x ∈ l) (hfx : f x = none) : mapOpt f l = none := by
  induction l with
  | nil => cases hx
  | cons a t ih =>
    rw [mapOpt_cons]
    rcases List.mem_cons.mp hx with h | h
    · rw [← h, hfx]; rfl
    · cases hfa : f a
      · rfl
      · rw [ih h]; rfl

theorem mapOpt_map (f : β → Option γ) (g : α → β) (l : List α) :
    mapOpt f (l.map g) = mapOpt (fun x => f (g x)) l := by
  induction l with
  | nil => rfl
  | cons a t ih => rw [List.map_cons, mapOpt_cons, mapOpt_cons, ih]

theorem filterMap_filter_isSome (f : α → Option β) (l : List α) :
    (l.filter (fun x => (f x).isSome)).filterMap f = l.filterMap f := by
  induction l with
  | nil => rfl
  | cons a t ih =>
    cases hfa : f a <;>
      simp [List.filter_cons, List.filterMap_cons, hfa, ih]

theorem length_crossPairs (dates locs : List String) :
    (crossPairs dates locs).length = dates.length * locs.length := by
  induction dates with
  | nil => simp [crossPairs]
  | cons d dt ih =>
    simp only [crossPairs, List.flatMap_cons, List.length_append, List.length_map,
      List.length_cons] at ih ⊢
    rw [ih, Nat.succ_mul, Nat.add_comm]

theorem enumFrom_succ_map (l : List α) : ∀ (n : Nat),
    List.enumFrom (n + 1) l = (List.enumFrom n l).map (Prod.map Nat.succ id) := by
  induction l with
  | nil => intro n; rfl
  | cons a t ih =>
    intro n
    simp only [List.enumFrom_cons, List.map_cons, Prod.map_apply, id_eq]
    rw [ih (n + 1)]

theorem specDedup_cons [DecidableEq α] (x : α) (xs : List α) :
    specDedup (x :: xs) = x :: (specDedup xs).filter (fun y => !decide (y = x)) := by
  unfold specDedup
  rw [List.enum_cons]
  rw [List.filter_cons]
  simp only [List.take_zero, List.take_succ_cons, List.contains_cons,
    Bool.not_or]
  norm_num
  rw [show (1:Nat) = 0 + 1 from rfl, enumFrom_succ_map xs 0, List.filter_map,
    List.map_map]
  rw [List.filter_map, List.filter_filter]
  simp only [Function.comp_def, Prod.map_snd, Prod.map_fst, id_eq,
    Nat.succ_eq_add_one, List.take_succ_cons, List.mem_cons, Bool.decide_or,
    Bool.not_or]
  rfl

theorem specDedup_filter [DecidableEq α] (q : α → Bool) (l : List α) :
    specDedup (l.filter q) = (specDedup l).filter q := by
  induction l with
  | nil => rfl
  | cons x xs ih =>
    cases hq : q x
    case false =>
      rw [show List.filter q (x :: xs) = List.filter q xs from by
        simp [List.filter_cons, hq]]
      rw [ih, specDedup_cons, List.filter_cons]
      simp only [hq]
      rw [List.filter_filter]
      refine (List.filter_congr ?_).symm
      intro a _
      by_cases hxa : a = x
      · subst hxa; simp [hq]
      · simp [hxa]
    case true =>
      rw [show List.filter q (x :: xs) = x :: List.filter q xs from by
        simp [List.filter_cons, hq]]
      rw [specDedup_cons, specDedup_cons, ih, List.filter_cons]
      simp only [hq, if_pos]
      rw [List.filter_filter, List.filter_filter]
      refine congrArg (x :: ·) (List.filter_congr ?_)
      intro a _
      exact Bool.and_comm _ _

theorem dedupFirstAux_eq_specDedup_filter [DecidableEq α] (l : List α) : ∀ (seen : List α),
    dedupFirstAux seen l = (specDedup l).filter (fun y => !decide (y ∈ seen)) := by
  induction l with
  | nil => intro seen; rfl
  | cons x xs ih =>
    intro seen
    rw [specDedup_cons, List.filter_cons]
    by_cases hx : x ∈ seen
    · rw [show dedupFirstAux seen (x :: xs) = dedupFirstAux seen xs from by
        simp [dedupFirstAux, hx]]
      rw [ih seen, if_neg (by simp [hx]), List.filter_filter]
      refine List.filter_congr ?_
      intro a _
      by_cases hxa : a = x
      · subst hxa; simp [hx]
      · simp [hxa]
    · rw [show dedupFirstAux seen (x :: xs) = x :: dedupFirstAux (x :: seen) xs from by
        simp [dedupFirstAux, hx]]
      rw [ih (x :: seen), if_pos (by simp [hx])]
      simp only [List.mem_cons, Bool.decide_or, Bool.not_or]
      rw [List.filter_filter]
      refine congrArg (x :: ·) (List.filter_congr ?_)
      intro a _
      exact Bool.and_comm _ _

theorem pyDedupFirst_eq_specDedup [DecidableEq α] (l : List α) :
    pyDedupFirst l = specDedup l := by
  rw [pyDedupFirst, dedupFirstAux_eq_specDedup_filter l []]
  refine List.filter_eq_self.mpr ?_
  intro a _
  simp

theorem mem_dedupFirstAux [DecidableEq α] (l : List α) : ∀ (seen : List α) (x : α),
    x ∈ dedupFirstAux seen l ↔ x ∈ l ∧ x ∉ seen := by
  induction l with
  | nil => intro seen x; simp [dedupFirstAux]
  | cons a t ih =>
    intro seen x
    by_cases ha : a ∈ seen
    · rw [show dedupFirstAux seen (a :: t) = dedupFirstAux seen t from by
        simp [dedupFirstAux, ha]]
      rw [ih]
      simp only [List.mem_cons]
      constructor
      · rintro ⟨hxt, hxs⟩; exact ⟨Or.inr hxt, hxs⟩
      · rintro ⟨rfl | hxt, hxs⟩
        · exact absurd ha hxs
        · exact ⟨hxt, hxs⟩
    · rw [show dedupFirstAux seen (a :: t) = a :: dedupFirstAux (a :: seen) t from by
        simp [dedupFirstAux, ha]]
      simp only [List.mem_cons, ih]
      constructor
      · rintro (rfl | ⟨hxt, hxs⟩)
        · exact ⟨Or.inl rfl, ha⟩
        · exact ⟨Or.inr hxt, fun h => hxs (Or.inr h)⟩
      · rintro ⟨rfl | hxt, hxs⟩
        · exact Or.inl rfl
        · by_cases hxa : x = a
          · exact Or.inl hxa
          · refine Or.inr ⟨hxt, ?_⟩
            rintro (h | h)
            · exact hxa h
            · exact hxs h

theorem nodup_dedupFirstAux [DecidableEq α] (l : List α) : ∀ (seen : List α),
    (dedupFirstAux seen l).Nodup := by
  induction l with
  | nil => intro seen; simp [dedupFirstAux]
  | cons a t ih =>
    intro seen
    by_cases ha : a ∈ seen
    · rw [show dedupFirstAux seen (a :: t) = dedupFirstAux seen t from by
        simp [dedupFirstAux, ha]]
      exact ih seen
    · rw [show dedupFirstAux seen (a :: t) = a :: dedupFirstAux (a :: seen) t from by
        simp [dedupFirstAux, ha]]
      refine List.nodup_cons.mpr ⟨?_, ih (a :: seen)⟩
      intro hmem
      exact ((mem_dedupFirstAux t (a :: seen) a).mp hmem).2 (List.mem_cons_self a seen)

theorem mem_pyDedupFirst [DecidableEq α] (l : List α) (x : α) :
    x ∈ pyDedupFirst l ↔ x ∈ l := by
  rw [pyDedupFirst, mem_dedupFirstAux]
  simp

theorem nodup_pyDedupFirst [DecidableEq α] (l : List α) :
    (pyDedupFirst l).Nodup :=
  nodup_dedupFirstAux l []

theorem col?_isSome_iff (t : Table) (c : String) :
    (t.col? c).isSome ↔ ∃ i, t.columns.indexOf? c = some i := by
  rw [Table.col?]
  cases h : t.columns.indexOf? c <;> simp

theorem col?_eq_of_indexOf? {t : Table} {c : String} {i : Nat}
    (h : t.columns.indexOf? c = some i) :
    t.col? c = some (t.rows.map (fun r => r.getD i none)) := by
  simp [Table.col?, h]

theorem rowCell_eq_of_indexOf? {t : Table} {c : String} {i : Nat}
    (h : t.columns.indexOf? c = some i) (r : Row) :
    rowCell t c r = r.getD i none := by
  simp [rowCell, h]

theorem calcCell_spec (t : Table) (d l : String) (ssid : List String) (ltype : String)
    (h : requiredPresent t) :
    calcCell t d l ssid ltype = some ⟨d, l, distinctUserCount t d l ltype ssid⟩ := by
  obtain ⟨h1, h2, h3, h4, h5⟩ := h
  obtain ⟨i1, hi1⟩ := (col?_isSome_iff t _).mp h1
  obtain ⟨i2, hi2⟩ := (col?_isSome_iff t _).mp h2
  obtain ⟨i3, hi3⟩ := (col?_isSome_iff t _).mp h3
  obtain ⟨i4, hi4⟩ := (col?_isSome_iff t _).mp h4
  obtain ⟨i5, hi5⟩ := (col?_isSome_iff t _).mp h5
  rw [calcCell, col?_eq_of_indexOf? hi1, col?_eq_of_indexOf? hi2,
    col?_eq_of_indexOf? hi3, col?_eq_of_indexOf? hi4]
  simp only [Option.bind_eq_bind, Option.some_bind]
  rw [show ∀ rows, (Table.mk t.columns rows).col? "User Name"
      = some (rows.map (fun r => r.getD i5 none)) from
    fun rows => by simp [Table.col?, hi5]]
  simp only [Option.bind_eq_bind, Option.some_bind]
  simp only [List.map_map, Function.comp_def]
  simp only [zipWith_map_same]
  simp only [List.filterMap_map, Function.comp_def, id_eq]
  rw [zip_self_filter_snd]
  simp only [List.filterMap_map, Function.comp_def]
  rw [distinctUserCount, matchingRows]
  have hfil : List.filter (rowMatches t d l ltype ssid) t.rows
      = List.filter (fun x : Row =>
          List.getD x i1 none == some d && List.getD x i2 none == some l
            && List.getD x i3 none == some ltype
            && ssidHit ssid (List.getD x i4 none)) t.rows :=
    List.filter_congr (fun x _ => by
      simp only [rowMatches, rowCell, hi1, hi2, hi3, hi4])
  rw [hfil]
  simp only [rowCell, hi5]
  rfl

theorem calculate_spec (t : Table) (dates locs ssid : List String) (ltype : String)
    (h : requiredPresent t) :
    calculate_distinct_count t dates locs ssid ltype =
      some ((crossPairs dates locs).map
        (fun p => ⟨p.1, p.2, distinctUserCount t p.1 p.2 ltype ssid⟩)) := by
  rw [calculate_distinct_count]
  exact mapOpt_eq_some_of _ _ _ (fun p _ => calcCell_spec t p.1 p.2 ssid ltype h)

theorem indexOf?_eq_none_of_col? {t : Table} {c : String} (h : t.col? c = none) :
    t.columns.indexOf? c = none := by
  rw [Table.col?] at h
  cases hx : t.columns.indexOf? c
  · rfl
  · simp [hx] at h

theorem optBind_none {o : Option α} {f : α → Option β}
    (h : ∀ a, f a = none) : (o >>= f) = none := by
  cases o <;> simp [h]

theorem calcCell_none (t : Table) (d l : String) (ssid : List String) (ltype : String)
    (h : ∃ c ∈ requiredColumns, t.col? c = none) :
    calcCell t d l ssid ltype = none := by
  obtain ⟨c, hc, hnone⟩ := h
  have hidx := indexOf?_eq_none_of_col? hnone
  simp only [requiredColumns, List.mem_cons, List.not_mem_nil, or_false] at hc
  rcases hc with rfl | rfl | rfl | rfl | rfl
  · rw [calcCell]
    simp [Table.col?, hidx]
  · rw [calcCell]
    apply optBind_none; intro dcol
    simp [Table.col?, hidx]
  · rw [calcCell]
    apply optBind_none; intro dcol
    apply optBind_none; intro lcol
    simp [Table.col?, hidx]
  · rw [calcCell]
    apply optBind_none; intro dcol
    apply optBind_none; intro lcol
    apply optBind_none; intro tcol
    simp [Table.col?, hidx]
  · rw [calcCell]
    apply optBind_none; intro dcol
    apply optBind_none; intro lcol
    apply optBind_none; intro tcol
    apply optBind_none; intro scol
    simp [Table.col?, hidx]

theorem distinctUserCount_dropNull (t : Table) (d l ltype : String) (ssid : List String) :
    distinctUserCount (dropNullUsers t) d l ltype ssid
      = distinctUserCount t d l ltype ssid := by
  have key : matchingRows (dropNullUsers t) d l ltype ssid
      = List.filter (rowMatches t d l ltype ssid)
          (List.filter (fun r => (rowCell t "User Name" r).isSome) t.rows) := rfl
  have huc : (fun r => rowCell (dropNullUsers t) "User Name" r)
      = (fun r => rowCell t "User Name" r) := rfl
  rw [distinctUserCount, distinctUserCount, key, huc, matchingRows]
  rw [← filterMap_filter_isSome (fun r => rowCell t "User Name" r)
    (List.filter (rowMatches t d l ltype ssid) t.rows)]
  rw [List.filter_filter, List.filter_filter]
  have hsw : List.filter
      (fun a => rowMatches t d l ltype ssid a && (rowCell t "User Name" a).isSome) t.rows
      = List.filter
        (fun a => (rowCell t "User Name" a).isSome && rowMatches t d l ltype ssid a) t.rows :=
    List.filter_congr (fun a _ => Bool.and_comm _ _)
  rw [hsw]

theorem requiredPresent_dropNullUsers (t : Table) (h : requiredPresent t) :
    requiredPresent (dropNullUsers t) := by
  obtain ⟨h1, h2, h3, h4, h5⟩ := h
  have key : ∀ c, ((dropNullUsers t).col? c).isSome = (t.col? c).isSome := by
    intro c
    rw [Table.col?, Table.col?]
    cases hx : t.columns.indexOf? c <;>
      simp [dropNullUsers, hx]
  exact ⟨by rw [key]; exact h1, by rw [key]; exact h2, by rw [key]; exact h3,
    by rw [key]; exact h4, by rw [key]; exact h5⟩

theorem needsQuote_false_spec (f : List Char) (h : needsQuote f = false) :
    ∀ c ∈ f, c ≠ ',' ∧ c ≠ '"' ∧ c ≠ '\n' ∧ c ≠ '\r' := by
  intro c hc
  rw [needsQuote, List.any_eq_false] at h
  have hf := h c hc
  simp [isCsvSpecial] at hf
  exact ⟨hf.1.1.1, hf.1.1.2, hf.1.2, hf.2⟩

theorem splitRecordsGo_quote_step (l : List Char) (inQ : Bool) (acc : List Char) :
    splitRecordsGo ('"' :: l) inQ acc = splitRecordsGo l (!inQ) ('"' :: acc) := by
  simp [splitRecordsGo]

theorem splitRecordsGo_char_step (c : Char) (l : List Char) (inQ : Bool) (acc : List Char)
    (hq : c ≠ '"') (hn : inQ = true ∨ c ≠ '\n') :
    splitRecordsGo (c :: l) inQ acc = splitRecordsGo l inQ (c :: acc) := by
  simp only [splitRecordsGo]
  rw [if_neg hq]
  by_cases hcn : c = '\n'
  · rcases hn with h2 | h2
    · rw [if_pos hcn, if_pos h2]
    · exact absurd hcn h2
  · rw [if_neg hcn]

theorem splitRecordsGo_newline_step (l : List Char) (acc : List Char) :
    splitRecordsGo ('\n' :: l) false acc = acc.reverse :: splitRecordsGo l false [] := by
  simp [splitRecordsGo]

theorem splitRecordsGo_append_of (s : List Char) :
    ∀ (inQ : Bool) (acc rest : List Char),
      (∀ c ∈ s, c ≠ '"') → (inQ = true ∨ ∀ c ∈ s, c ≠ '\n') →
      splitRecordsGo (s ++ rest) inQ acc = splitRecordsGo rest inQ (s.reverse ++ acc) := by
  induction s with
  | nil => intro inQ acc rest _ _; simp
  | cons c cs ih =>
    intro inQ acc rest hq hn
    rw [List.cons_append,
      splitRecordsGo_char_step c _ inQ acc (hq c (List.mem_cons_self _ _))
        (hn.imp id (fun h2 => h2 c (List.mem_cons_self _ _))),
      ih inQ (c :: acc) rest (fun x hx => hq x (List.mem_cons_of_mem _ hx))
        (hn.imp id (fun h2 x hx => h2 x (List.mem_cons_of_mem _ hx)))]
    simp

theorem splitRecordsGo_escQuote (s : List Char) :
    ∀ (acc rest : List Char),
      splitRecordsGo (escQuote s ++ '"' :: rest) true acc
        = splitRecordsGo rest false ('"' :: (escQuote s).reverse ++ acc) := by
  induction s with
  | nil => intro acc rest; simp [escQuote, splitRecordsGo]
  | cons c cs ih =>
    intro acc rest
    by_cases hc : c = '"'
    · subst hc
      rw [show escQuote ('"' :: cs) = '"' :: '"' :: escQuote cs from by simp [escQuote]]
      rw [List.cons_append, List.cons_append, splitRecordsGo_quote_step,
        splitRecordsGo_quote_step, Bool.not_true, Bool.not_false, ih]
      simp
    · rw [show escQuote (c :: cs) = c :: escQuote cs from by simp [escQuote, hc]]
      rw [List.cons_append, splitRecordsGo_char_step c _ true _ hc (Or.inl rfl), ih]
      simp

theorem splitRecordsGo_renderField (f rest acc : List Char) :
    splitRecordsGo (renderField f ++ rest) false acc
      = splitRecordsGo rest false ((renderField f).reverse ++ acc) := by
  cases hnq : needsQuote f
  · rw [renderField, if_neg (by simp [hnq])]
    have hp := needsQuote_false_spec f hnq
    exact splitRecordsGo_append_of f false acc rest (fun c hc => (hp c hc).2.1)
      (Or.inr (fun c hc => (hp c hc).2.2.1))
  · rw [renderField, if_pos (by simp [hnq])]
    rw [List.cons_append, splitRecordsGo_quote_step, List.append_assoc,
      List.singleton_append, Bool.not_false, splitRecordsGo_escQuote]
    simp

theorem splitRecordsGo_renderedRec (fs : List (List Char)) :
    ∀ (rest acc : List Char),
      splitRecordsGo (renderedRec fs ++ rest) false acc
        = splitRecordsGo rest false ((renderedRec fs).reverse ++ acc) := by
  induction fs with
  | nil => intro rest acc; simp [renderedRec, joinComma]
  | cons f fs ih =>
    intro rest acc
    cases fs with
    | nil =>
      rw [show renderedRec [f] = renderField f from by simp [renderedRec, joinComma]]
      exact splitRecordsGo_renderField f rest acc
    | cons g gs =>
      rw [show renderedRec (f :: g :: gs) = renderField f ++ ',' :: renderedRec (g :: gs) from by
        simp [renderedRec, joinComma]]
      rw [List.append_assoc, List.cons_append, splitRecordsGo_renderField,
        splitRecordsGo_char_step ',' _ false _ (by decide) (Or.inr (by decide)),
        ih]
      simp

theorem splitRecordsGo_renderRecord (fs : List (List Char)) (rest : List Char) :
    splitRecordsGo (renderRecord fs ++ rest) false []
      = renderedRec fs :: splitRecordsGo rest false [] := by
  rw [renderRecord, List.append_assoc, List.singleton_append,
    splitRecordsGo_renderedRec, splitRecordsGo_newline_step]
  simp

theorem splitRecordsGo_flatRecords (rs : List (List (List Char))) :
    splitRecordsGo (rs.flatMap renderRecord) false [] = rs.map renderedRec ++ [[]] := by
  induction rs with
  | nil => simp [splitRecordsGo]
  | cons r rs ih => rw [List.flatMap_cons, splitRecordsGo_renderRecord, ih]; simp

theorem splitFieldsGo_quote_step (l : List Char) (inQ : Bool) (acc : List Char) :
    splitFieldsGo ('"' :: l) inQ acc = splitFieldsGo l (!inQ) ('"' :: acc) := by
  simp [splitFieldsGo]

theorem splitFieldsGo_char_step (c : Char) (l : List Char) (inQ : Bool) (acc : List Char)
    (hq : c ≠ '"') (hn : inQ = true ∨ c ≠ ',') :
    splitFieldsGo (c :: l) inQ acc = splitFieldsGo l inQ (c :: acc) := by
  simp only [splitFieldsGo]
  rw [if_neg hq]
  by_cases hcn : c = ','
  · rcases hn with h2 | h2
    · rw [if_pos hcn, if_pos h2]
    · exact absurd hcn h2
  · rw [if_neg hcn]

theorem splitFieldsGo_comma_step (l : List Char) (acc : List Char) :
    splitFieldsGo (',' :: l) false acc = acc.reverse :: splitFieldsGo l false [] := by
  simp [splitFieldsGo]

theorem splitFieldsGo_append_of (s : List Char) :
    ∀ (inQ : Bool) (acc rest : List Char),
      (∀ c ∈ s, c ≠ '"') → (inQ = true ∨ ∀ c ∈ s, c ≠ ',') →
      splitFieldsGo (s ++ rest) inQ acc = splitFieldsGo rest inQ (s.reverse ++ acc) := by
  induction s with
  | nil => intro inQ acc rest _ _; simp
  | cons c cs ih =>
    intro inQ acc rest hq hn
    rw [List.cons_append,
      splitFieldsGo_char_step c _ inQ acc (hq c (List.mem_cons_self _ _))
        (hn.imp id (fun h2 => h2 c (List.mem_cons_self _ _))),
      ih inQ (c :: acc) rest (fun x hx => hq x (List.mem_cons_of_mem _ hx))
        (hn.imp id (fun h2 x hx => h2 x (List.mem_cons_of_mem _ hx)))]
    simp

theorem splitFieldsGo_escQuote (s : List Char) :
    ∀ (acc rest : List Char),
      splitFieldsGo (escQuote s ++ '"' :: rest) true acc
        = splitFieldsGo rest false ('"' :: (escQuote s).reverse ++ acc) := by
  induction s with
  | nil => intro acc rest; simp [escQuote, splitFieldsGo]
  | cons c cs ih =>
    intro acc rest
    by_cases hc : c = '"'
    · subst hc
      rw [show escQuote ('"' :: cs) = '"' :: '"' :: escQuote cs from by simp [escQuote]]
      rw [List.cons_append, List.cons_append, splitFieldsGo_quote_step,
        splitFieldsGo_quote_step, Bool.not_true, Bool.not_false, ih]
      simp
    · rw [show escQuote (c :: cs) = c :: escQuote cs from by simp [escQuote, hc]]
      rw [List.cons_append, splitFieldsGo_char_step c _ true _ hc (Or.inl rfl), ih]
      simp

theorem splitFieldsGo_renderField (f rest acc : List Char) :
    splitFieldsGo (renderField f ++ rest) false acc
      = splitFieldsGo rest false ((renderField f).reverse ++ acc) := by
  cases hnq : needsQuote f
  · rw [renderField, if_neg (by simp [hnq])]
    have hp := needsQuote_false_spec f hnq
    exact splitFieldsGo_append_of f false acc rest (fun c hc => (hp c hc).2.1)
      (Or.inr (fun c hc => (hp c hc).1))
  · rw [renderField, if_pos (by simp [hnq])]
    rw [List.cons_append, splitFieldsGo_quote_step, List.append_assoc,
      List.singleton_append, Bool.not_false, splitFieldsGo_escQuote]
    simp

theorem splitFields_renderedRec (fs : List (List Char)) (hne : fs ≠ []) :
    splitFieldsGo (renderedRec fs) false [] = fs.map renderField := by
  induction fs with
  | nil => exact absurd rfl hne
  | cons f fs ih =>
    cases fs with
    | nil =>
      rw [show renderedRec [f] = renderField f from by simp [renderedRec, joinComma]]
      have h0 := splitFieldsGo_renderField f [] []
      rw [List.append_nil] at h0
      rw [h0]
      simp [splitFieldsGo]
    | cons g gs =>
      rw [show renderedRec (f :: g :: gs) = renderField f ++ ',' :: renderedRec (g :: gs) from by
        simp [renderedRec, joinComma]]
      rw [splitFieldsGo_renderField, splitFieldsGo_comma_step, ih (by simp)]
      simp

theorem undouble_cons_ne (c : Char) (hc : c ≠ '"') (X : List Char) :
    undouble (c :: X) = (undouble X).map (fun f => c :: f) := by
  cases X with
  | nil => simp [undouble, hc]
  | cons a Y => simp [undouble, hc]

theorem undouble_quote_quote (X : List Char) :
    undouble ('"' :: '"' :: X) = (undouble X).map (fun f => '"' :: f) := by
  simp [undouble]

theorem undouble_escQuote (s : List Char) :
    undouble (escQuote s ++ ['"']) = some s := by
  induction s with
  | nil => rfl
  | cons c cs ih =>
    by_cases hc : c = '"'
    · subst hc
      rw [show escQuote ('"' :: cs) = '"' :: '"' :: escQuote cs from by simp [escQuote]]
      rw [List.cons_append, List.cons_append, undouble_quote_quote, ih]
      rfl
    · rw [show escQuote (c :: cs) = c :: escQuote cs from by simp [escQuote, hc]]
      rw [List.cons_append, undouble_cons_ne c hc, ih]
      rfl

theorem unquoteField_renderField (f : List Char) :
    unquoteField (renderField f) = some f := by
  cases hnq : needsQuote f
  · rw [renderField, if_neg (by simp [hnq])]
    have hp := needsQuote_false_spec f hnq
    cases f with
    | nil => rfl
    | cons c rest =>
      have hc : c ≠ '"' := (hp c (List.mem_cons_self _ _)).2.1
      have hcont : ¬((c :: rest).contains '"' = true) := by
        intro hmem
        exact (hp '"' (List.elem_iff.mp hmem)).2.1 rfl
      simp only [unquoteField]
      rw [if_neg hc, if_neg hcont]
  · rw [renderField, if_pos (by simp [hnq])]
    rw [show unquoteField ('"' :: (escQuote f ++ ['"'])) = undouble (escQuote f ++ ['"']) from by
      simp [unquoteField]]
    exact undouble_escQuote f

theorem parseRecord1_renderedRec (fs : List (List Char)) (hne : fs ≠ []) :
    parseRecord1 (renderedRec fs) = some fs := by
  rw [parseRecord1, splitFields_renderedRec fs hne, mapOpt_map]
  exact (mapOpt_eq_some_of (fun f => unquoteField (renderField f)) id fs
    (fun f _ => unquoteField_renderField f)).trans (by rw [List.map_id])

theorem renderedRec_rrFields_ne_nil (r : ResultRow) :
    (!(renderedRec (rrFields r)).isEmpty) = true := by
  simp [renderedRec, rrFields, joinComma]

theorem filter_nonEmpty_recs (rt : List ResultRow) :
    List.filter (fun r => !r.isEmpty)
      (((resultHeader.map String.data) :: rt.map rrFields).map renderedRec ++ [[]])
      = renderedRec (resultHeader.map String.data) :: (rt.map rrFields).map renderedRec := by
  rw [List.filter_append,
    show List.filter (fun r => !r.isEmpty) [([] : List Char)] = [] from rfl,
    List.append_nil, List.filter_eq_self.mpr, List.map_cons]
  intro a ha
  rw [List.map_cons] at ha
  rcases List.mem_cons.mp ha with rfl | ha2
  · decide
  · obtain ⟨fs, hfs, rfl⟩ := List.mem_map.mp ha2
    obtain ⟨r0, _, rfl⟩ := List.mem_map.mp hfs
    exact renderedRec_rrFields_ne_nil r0

theorem read_csv_to_csv_aux (rt : List ResultRow) :
    read_csv (to_csv rt) = some (resultTableOf rt) := by
  have hdata : (to_csv rt).data
      = ((resultHeader.map String.data) :: rt.map rrFields).flatMap renderRecord := by
    rw [List.flatMap_cons, List.flatMap_map]
    rfl
  rw [read_csv, hdata, splitRecordsGo_flatRecords, filter_nonEmpty_recs]
  simp only [List.head?_cons, List.tail_cons, Option.bind_eq_bind, Option.some_bind]
  rw [parseRecord1_renderedRec _ (by simp [resultHeader])]
  rw [show mapOpt parseRecord1 ((rt.map rrFields).map renderedRec)
      = some (rt.map rrFields) from by
    rw [mapOpt_map, mapOpt_map]
    exact (mapOpt_eq_some_of _ rrFields rt
      (fun r _ => parseRecord1_renderedRec (rrFields r) (by simp [rrFields]))).trans rfl]
  simp only [Option.some_bind]
  rw [if_pos ?hall]
  case hall =>
    rw [List.all_eq_true]
    intro r hr
    obtain ⟨r0, _, rfl⟩ := List.mem_map.mp hr
    rfl
  rw [List.map_map, List.map_map]
  rfl

/-- C1: for every table holding the five required columns and every
non-empty dates, locationNames, ssids and single locationType,
`calculate_distinct_count` emits, for each (date, location) pair of the
selection, the number of distinct present `User Name` values among the
table rows whose `Local Date` equals the date, `Location Name` equals the
location, `Location Type` equals the locationType and `SSID` is a member
of ssids (`distinctUserCount`, defined from the spec's filter predicate);
duplicate users do not raise the count (the count is the length of a
deduplicated list) and an empty match yields 0. -/
theorem distinct_count_per_pair (t : Table) (dates locs ssid : List String) (ltype : String)
    (hcols : requiredPresent t) (_hd : dates ≠ []) (_hl : locs ≠ []) (_hs : ssid ≠ []) :
    calculate_distinct_count t dates locs ssid ltype
      = some (dates.flatMap (fun d => locs.map (fun l =>
          ⟨d, l, distinctUserCount t d l ltype ssid⟩))) := by
  rw [calculate_spec t dates locs ssid ltype hcols, crossPairs, List.map_flatMap]
  simp only [List.map_map]
  rfl

/-- Witness for C1 at the spec's example table: three rows, two repeating
the same user, give distinct count 2, not 3. -/
theorem distinct_count_per_pair_witness :
    (requiredPresent exTable ∧ (["d1"] : List String) ≠ [] ∧ (["l1"] : List String) ≠ []
      ∧ (["s1", "s2"] : List String) ≠ [])
    ∧ calculate_distinct_count exTable ["d1"] ["l1"] ["s1", "s2"] "t1"
        = some [⟨"d1", "l1", 2⟩] :=
  ⟨⟨by decide, by decide, by decide, by decide⟩,
   distinct_count_per_pair exTable ["d1"] ["l1"] ["s1", "s2"] "t1"
     (by decide) (by decide) (by decide) (by decide)⟩

/-- C2: for every table with the required columns and non-empty dates and
locationNames, the result has exactly one row per (date, location) pair of
the cross product — `|dates| * |locationNames|` rows, dates iterated outer
and locations inner — and a pair with no matching rows still yields a row,
with count 0. -/
theorem result_rows_cover_cross_product (t : Table) (dates locs ssid : List String)
    (ltype : String) (hcols : requiredPresent t) (_hd : dates ≠ []) (_hl : locs ≠ []) :
    ∃ res, calculate_distinct_count t dates locs ssid ltype = some res
      ∧ res.map (fun r => (r.date, r.locName)) = crossPairs dates locs
      ∧ res.length = dates.length * locs.length
      ∧ ∀ r ∈ res, matchingRows t r.date r.locName ltype ssid = [] → r.count = 0 := by
  refine ⟨_, calculate_spec t dates locs ssid ltype hcols, ?_, ?_, ?_⟩
  · rw [List.map_map]
    rw [show ((fun r : ResultRow => (r.date, r.locName)) ∘
        (fun p : String × String =>
          (⟨p.1, p.2, distinctUserCount t p.1 p.2 ltype ssid⟩ : ResultRow)))
        = fun p => p from funext (fun p => rfl)]
    exact List.map_id' _
  · rw [List.length_map, length_crossPairs]
  · intro r hr hm
    obtain ⟨p, hp, rfl⟩ := List.mem_map.mp hr
    show distinctUserCount t p.1 p.2 ltype ssid = 0
    have hnil : (matchingRows t p.1 p.2 ltype ssid).filterMap
        (fun row => rowCell t "User Name" row) = [] := by
      rw [show matchingRows t p.1 p.2 ltype ssid = [] from hm]
      rfl
    rw [distinctUserCount, hnil]
    rfl

/-- Witness for C2: two dates and one location give exactly 2 × 1 rows in
cross-product order, the unmatched date contributing a count-0 row. -/
theorem result_rows_cover_cross_product_witness :
    (requiredPresent exTable ∧ (["d1", "dX"] : List String) ≠ []
      ∧ (["l1"] : List String) ≠ [])
    ∧ ∃ res, calculate_distinct_count exTable ["d1", "dX"] ["l1"] ["s1"] "t1" = some res
        ∧ res.map (fun r => (r.date, r.locName)) = crossPairs ["d1", "dX"] ["l1"]
        ∧ res.length = 2 * 1
        ∧ ∀ r ∈ res, matchingRows exTable r.date r.locName "t1" ["s1"] = [] → r.count = 0 :=
  ⟨⟨by decide, by decide, by decide⟩,
   result_rows_cover_cross_product exTable ["d1", "dX"] ["l1"] ["s1"] "t1"
     (by decide) (by decide) (by decide)⟩

/-- C3: if any of the selected dates, location names or SSIDs is empty,
the per-file analysis returns the empty result table without invoking the
aggregation: the result is `some []` for every loader outcome, even ones
on which `calculate_distinct_count` would fail. -/
theorem empty_selection_no_aggregation (re : String → Option Table) (file : UploadedFile)
    (dates locs ssid : List String) (ltype : String)
    (h : dates = [] ∨ locs = [] ∨ ssid = []) :
    analyze_file re file dates locs ssid ltype = some [] := by
  rcases h with rfl | rfl | rfl <;>
    cases hload : (load_data re file).1 <;>
      simp [analyze_file, hload]

/-- Witness for C3 with an empty date selection. -/
theorem empty_selection_no_aggregation_witness :
    (([] : List String) = [] ∨ (["l1"] : List String) = [] ∨ (["s1"] : List String) = [])
    ∧ analyze_file (fun _ => none) ⟨"f.csv", "text/csv", "a\n1\n"⟩ [] ["l1"] ["s1"] "t1"
        = some [] :=
  ⟨Or.inl rfl,
   empty_selection_no_aggregation (fun _ => none) ⟨"f.csv", "text/csv", "a\n1\n"⟩
     [] ["l1"] ["s1"] "t1" (Or.inl rfl)⟩

/-- C4: merging two result tables equals their concatenation with every
row that duplicates an earlier row (all three fields equal) removed,
keeping the first occurrence in position (`specDedup`, the index-based
spec reading); in particular the spec's example merge gives exactly the
two distinct rows. -/
theorem merge_keeps_first_occurrences :
    (∀ (A B : List ResultRow), merged_df A B = specDedup (A ++ B))
    ∧ merged_df [⟨"d1", "l1", 3⟩] [⟨"d1", "l1", 3⟩, ⟨"d2", "l2", 5⟩]
        = [⟨"d1", "l1", 3⟩, ⟨"d2", "l2", 5⟩] := by
  constructor
  · intro A B
    rw [merged_df, pyDedupFirst_eq_specDedup]
  · decide

/-- C5: for every table and column present in it, `get_unique_values`
returns a strictly ascending (lexicographic) duplicate-free sequence of
the string-coerced values of that column (membership-equal to the coerced
column); as a pure function it trivially returns the identical sequence
when re-run on the same inputs. -/
theorem unique_values_sorted (t : Table) (col : String) (cells : List Cell)
    (h : t.col? col = some cells) :
    ∃ l, get_unique_values t col = some l
      ∧ List.Sorted (· < ·) l
      ∧ (∀ x, x ∈ l ↔ x ∈ cells.map pyStr) := by
  refine ⟨pySorted (pyDedupFirst (cells.map pyStr)),
    by rw [get_unique_values, h]; rfl, ?_, ?_⟩
  · have hsorted : List.Sorted (· ≤ ·) (pySorted (pyDedupFirst (cells.map pyStr))) :=
      List.sorted_insertionSort _ _
    have hnodup : (pySorted (pyDedupFirst (cells.map pyStr))).Nodup :=
      ((List.perm_insertionSort _ _).symm).nodup (nodup_pyDedupFirst _)
    exact hsorted.lt_of_le hnodup
  · intro x
    rw [show (x ∈ pySorted (pyDedupFirst (cells.map pyStr)))
        ↔ x ∈ pyDedupFirst (cells.map pyStr) from (List.perm_insertionSort _ _).mem_iff]
    exact mem_pyDedupFirst _ _

/-- Witness for C5 on the example table's `SSID` column. -/
theorem unique_values_sorted_witness :
    exTable.col? "SSID" = some [some "s1", some "s1", some "s2"]
    ∧ ∃ l, get_unique_values exTable "SSID" = some l
        ∧ List.Sorted (· < ·) l
        ∧ (∀ x, x ∈ l ↔ x ∈ ([some "s1", some "s1", some "s2"] : List Cell).map pyStr) :=
  ⟨by decide,
   unique_values_sorted exTable "SSID" [some "s1", some "s1", some "s2"] (by decide)⟩

/-- C6: when the uploaded file's contents fail to parse as the declared
type, `load_data` returns no table together with a user-visible error
message — the model is total, no exception escapes — and the per-file
analysis yields the empty result for every selection, skipping the
downstream steps. -/
theorem load_error_yields_empty (re : String → Option Table) (file : UploadedFile)
    (h : (if file.type = "text/csv" then read_csv file.contents
          else re file.contents) = none) :
    load_data re file = (none, ["Error loading data"])
    ∧ ∀ dates locs ssid ltype, analyze_file re file dates locs ssid ltype = some [] := by
  have hl : load_data re file = (none, ["Error loading data"]) := by
    rw [load_data, h]
  exact ⟨hl, fun dates locs ssid ltype => by rw [analyze_file, hl]⟩

/-- Witness for C6: a CSV body with an unterminated quote fails to parse
and the loader reports it. -/
theorem load_error_yields_empty_witness :
    read_csv "\"x" = none
    ∧ (load_data (fun _ => none) ⟨"b.csv", "text/csv", "\"x"⟩ = (none, ["Error loading data"])
      ∧ ∀ dates locs ssid ltype,
          analyze_file (fun _ => none) ⟨"b.csv", "text/csv", "\"x"⟩ dates locs ssid ltype
            = some []) :=
  ⟨by decide,
   load_error_yields_empty (fun _ => none) ⟨"b.csv", "text/csv", "\"x"⟩ (by decide)⟩

/-- C7: serializing any result table to CSV (header row, no index column)
and parsing it back with the Loader's CSV reader yields exactly the rows
of the original result table, each field a present string cell with the
date coerced to its string form and the count in decimal. -/
theorem csv_round_trip (rt : List ResultRow) :
    read_csv (to_csv rt) = some (resultTableOf rt) :=
  read_csv_to_csv_aux rt

/-- C8: on a table lacking one of the five required columns, the Selector
(`get_unique_values`) and — as soon as the selection is non-empty so that
the column is accessed — the Aggregator (`calculate_distinct_count`)
return `none`, the model of an uncaught `KeyError`, rather than
recovering or producing an empty result. -/
theorem missing_column_raises (t : Table) (c : String)
    (hc : c ∈ requiredColumns) (hn : t.col? c = none) :
    get_unique_values t c = none
    ∧ ∀ dates locs ssid ltype, dates ≠ [] → locs ≠ [] →
        calculate_distinct_count t dates locs ssid ltype = none := by
  constructor
  · rw [get_unique_values, hn]
    rfl
  · intro dates locs ssid ltype hd hl
    obtain ⟨d0, dt, rfl⟩ := List.exists_cons_of_ne_nil hd
    obtain ⟨l0, lt0, rfl⟩ := List.exists_cons_of_ne_nil hl
    rw [calculate_distinct_count]
    refine mapOpt_none_of _ _ (d0, l0) ?_ (calcCell_none t d0 l0 ssid ltype ⟨c, hc, hn⟩)
    exact List.mem_flatMap.mpr
      ⟨d0, List.mem_cons_self _ _, List.mem_map.mpr ⟨l0, List.mem_cons_self _ _, rfl⟩⟩

/-- Witness for C8 on a table without the `SSID` column. -/
theorem missing_column_raises_witness :
    ("SSID" ∈ requiredColumns ∧ exTableNoSsid.col? "SSID" = none)
    ∧ (get_unique_values exTableNoSsid "SSID" = none
      ∧ ∀ dates locs ssid ltype, dates ≠ [] → locs ≠ [] →
          calculate_distinct_count exTableNoSsid dates locs ssid ltype = none) :=
  ⟨⟨by decide, by decide⟩,
   missing_column_raises exTableNoSsid "SSID" (by decide) (by decide)⟩

/-- C9: missing `User Name` values never contribute to a distinct count:
the aggregation result is unchanged when all rows with a missing user are
dropped, and a result row whose matching table rows all have a missing
`User Name` has count 0. -/
theorem missing_users_not_counted (t : Table) (dates locs ssid : List String)
    (ltype : String) (hcols : requiredPresent t) :
    calculate_distinct_count t dates locs ssid ltype
      = calculate_distinct_count (dropNullUsers t) dates locs ssid ltype
    ∧ ∀ res, calculate_distinct_count t dates locs ssid ltype = some res →
        ∀ r ∈ res, (∀ row ∈ matchingRows t r.date r.locName ltype ssid,
            rowCell t "User Name" row = none) → r.count = 0 := by
  constructor
  · rw [calculate_spec t dates locs ssid ltype hcols,
      calculate_spec (dropNullUsers t) dates locs ssid ltype
        (requiredPresent_dropNullUsers t hcols)]
    congr 1
    refine List.map_congr_left ?_
    intro p _
    rw [distinctUserCount_dropNull]
  · intro res hres r hr hall
    rw [calculate_spec t dates locs ssid ltype hcols] at hres
    injection hres with hres2
    subst hres2
    obtain ⟨p, hp, rfl⟩ := List.mem_map.mp hr
    show distinctUserCount t p.1 p.2 ltype ssid = 0
    have hnil : (matchingRows t p.1 p.2 ltype ssid).filterMap
        (fun row => rowCell t "User Name" row) = [] :=
      List.filterMap_eq_nil_iff.mpr (fun row hrow => hall row hrow)
    rw [distinctUserCount, hnil]
    rfl

/-- Witness for C9 on a table whose matching rows all lack a user. -/
theorem missing_users_not_counted_witness :
    requiredPresent exTableNull
    ∧ (calculate_distinct_count exTableNull ["d1"] ["l1"] ["s1"] "t1"
        = calculate_distinct_count (dropNullUsers exTableNull) ["d1"] ["l1"] ["s1"] "t1"
      ∧ ∀ res, calculate_distinct_count exTableNull ["d1"] ["l1"] ["s1"] "t1" = some res →
          ∀ r ∈ res, (∀ row ∈ matchingRows exTableNull r.date r.locName "t1" ["s1"],
              rowCell exTableNull "User Name" row = none) → r.count = 0) :=
  ⟨by decide,
   missing_users_not_counted exTableNull ["d1"] ["l1"] ["s1"] "t1" (by decide)⟩

/-- C10: for any filetype other than `"csv"` and `"xlsx"`, `download_link`
reaches the end of the if/elif chain with its result variable never
assigned (`none`, the `UnboundLocalError` of the source) instead of
returning a link or reporting a handled error; the two recognized
filetypes do return a link. -/
theorem download_link_unassigned_type (b64 : String → String)
    (tox : List ResultRow → String) (df : List ResultRow) (ft fn : String)
    (h1 : ft ≠ "csv") (h2 : ft ≠ "xlsx") :
    download_link b64 tox df ft fn = none
    ∧ (download_link b64 tox df "csv" fn).isSome
    ∧ (download_link b64 tox df "xlsx" fn).isSome := by
  refine ⟨?_, by simp [download_link], by simp [download_link]⟩
  rw [download_link, if_neg h1, if_neg h2]

/-- Witness for C10 at filetype `"txt"`. -/
theorem download_link_unassigned_type_witness :
    (("txt" : String) ≠ "csv" ∧ ("txt" : String) ≠ "xlsx")
    ∧ (download_link id (fun _ => "") [] "txt" "f.csv" = none
      ∧ (download_link id (fun _ => "") [] "csv" "f.csv").isSome
      ∧ (download_link id (fun _ => "") [] "xlsx" "f.csv").isSome) :=
  ⟨⟨by decide, by decide⟩,
   download_link_unassigned_type id (fun _ => "") [] "txt" "f.csv" (by decide) (by decide)⟩

end App
